import Mathlib

/-!
# Verification of the CRL updater (`crl/updater/updater.go`)

A shallow embedding of the CRL updater's core logic, followed by theorems
settling the specification claims about it.

## Time model

Go's `time.Time` is modelled as an integer count of nanoseconds from the
zero value `time.Time{}` (midnight UTC, January 1, year 1).  `time.Time`
itself can represent a far larger range than `time.Duration`, and
`Time.Add` is exact for all inputs that appear here, so `Add` is modelled
as exact integer addition.  `time.Duration` is a 64-bit signed count of
nanoseconds, and `Time.Sub` is documented to saturate: "If the result
exceeds the maximum (or minimum) value that can be stored in a Duration,
the maximum (or minimum) duration will be returned."  `timeSub` models
that saturation explicitly, since `getWindowForShard` computes
`atTime.Sub(time.Time{})`, which reaches the saturation bound for any
time 2^63 nanoseconds (about 292 years) or more past the zero value.

Adding two `time.Duration` values is 64-bit two's-complement addition:
it wraps around, which is reachable with valid durations (for example
`lookback = lookforward = 2^62` gives the wrapped sum `-2^63`).  `wrap64`
models that wraparound, and is applied wherever the source adds two
`Duration`s (`lookbackPeriod + lookforwardPeriod` in `NewUpdater` and in
`getWindowForShard`).

Go's `%` on integers is truncated division (the sign of the remainder
follows the dividend), so it is modelled by `Int.tmod`, and `/` by
`Int.tdiv`.  `Int.tmod x 0 = x` is total, whereas Go panics on a zero
divisor; `NewUpdater` accepts a configuration with a wrapped window
width of zero, on which `getWindowForShard` would panic at run time, so
every universal theorem about `getWindowForShard` below carries a
nonzero-window hypothesis.
-/

/-- Maximum value of Go's `time.Duration` (`1<<63 - 1` nanoseconds). -/
def maxDuration : Int := 2 ^ 63 - 1

/-- Minimum value of Go's `time.Duration` (`-1 << 63` nanoseconds). -/
def minDuration : Int := -(2 ^ 63)

/-- Go's `Time.Sub`: exact difference, saturated to the `Duration` range. -/
def timeSub (t u : Int) : Int :=
  if t - u > maxDuration then maxDuration
  else if t - u < minDuration then minDuration
  else t - u

/-- 64-bit two's-complement wraparound: the value of an `int64`
computation whose exact integer result is `x`.  Go's `Duration` addition
`lookbackPeriod + lookforwardPeriod` is this operation. -/
def wrap64 (x : Int) : Int := (x + 2 ^ 63) % 2 ^ 64 - 2 ^ 63

/-- Nanoseconds from `time.Time{}` (January 1, year 1) to the Unix epoch
(January 1, 1970); Go's internal `unixToInternal` constant is 62135596800
seconds. `Time.UnixNano` subtracts it. -/
def unixEpochOffset : Int := 62135596800 * 1000000000

/-- Go's `Time.UnixNano`: nanoseconds since the Unix epoch. -/
def unixNano (t : Int) : Int := t - unixEpochOffset

/-- The configuration fields of the `crlUpdater` struct that the shard
window computation depends on.  `numShards` is an `int64`; the two
periods are `time.Duration` values in nanoseconds. -/
structure CrlUpdaterConfig where
  numShards : Int
  lookbackPeriod : Int
  lookforwardPeriod : Int
deriving DecidableEq

/-- The candidate chunk computed by the first half of `getWindowForShard`:
the instance of the requested chunk ID inside the most recent
window-width cycle at `atTime`, before the behind-window shift check.
Mirrors `updater.go` lines 176-194; the window width is the wrapped
`int64` sum of the two periods. -/
def shardCandidate (cu : CrlUpdaterConfig) (atTime shardID : Int) : Int × Int :=
  let shardID' := Int.tmod shardID cu.numShards
  let windowWidth := wrap64 (cu.lookbackPeriod + cu.lookforwardPeriod)
  let atTimeOffset := Int.tmod (timeSub atTime 0) windowWidth
  let zeroStart := atTime + (-atTimeOffset)
  let shardWidth := Int.tdiv windowWidth cu.numShards
  let shardOffset := shardID' * shardWidth
  let shardStart := zeroStart + shardOffset
  let shardEnd := shardStart + shardWidth
  (shardStart, shardEnd)

/-- `getWindowForShard` (`updater.go` lines 174-204): the candidate chunk,
bumped forward by one full window width when it lies strictly behind the
left-hand edge `atTime - lookbackPeriod` of the current window. -/
def getWindowForShard (cu : CrlUpdaterConfig) (atTime shardID : Int) : Int × Int :=
  let windowWidth := wrap64 (cu.lookbackPeriod + cu.lookforwardPeriod)
  let c := shardCandidate cu atTime shardID
  if c.2 < atTime - cu.lookbackPeriod then
    (c.1 + windowWidth, c.2 + windowWidth)
  else
    c

/-- An issuer certificate, reduced to what the updater core reads of it:
its stable name ID. -/
structure IssuerCert where
  nameID : Int
deriving DecidableEq

/-- The issuer map built at the top of `NewUpdater`: a Go map from name ID
to certificate, modelled as a lookup function where a later list entry
overwrites an earlier one with the same name ID. -/
def issuersByNameID (issuers : List IssuerCert) : Int → Option IssuerCert :=
  issuers.foldl (fun m iss => fun k => if k = iss.nameID then some iss else m k)
    (fun _ => none)

/-- The validated `crlUpdater` value built by `NewUpdater`. -/
structure CrlUpdaterState where
  issuers : Int → Option IssuerCert
  numShards : Int
  lookbackPeriod : Int
  lookforwardPeriod : Int
  updatePeriod : Int

/-- Seven days in nanoseconds (`7 * 24 * time.Hour`). -/
def sevenDays : Int := 7 * 24 * 3600 * 1000000000

/-- `NewUpdater` (`updater.go` lines 36-95): builds the issuer map, then
validates the shard count, the update period, and the divisibility of the
total window — the wrapped `int64` sum of the two periods — by the shard
count, in that order; metrics registration has no failure path relevant
here. -/
def NewUpdater (issuers : List IssuerCert) (numShards lookbackPeriod lookforwardPeriod updatePeriod : Int) :
    Except String CrlUpdaterState :=
  if numShards < 1 then
    .error ("must have positive number of shards, got: " ++ toString numShards)
  else if sevenDays ≤ updatePeriod then
    .error ("must update CRLs at least every 7 days, got: " ++ toString updatePeriod)
  else if Int.tmod (wrap64 (lookbackPeriod + lookforwardPeriod)) numShards ≠ 0 then
    .error ("total window (lookback+lookforward=" ++
      toString (wrap64 (lookbackPeriod + lookforwardPeriod)) ++
      "ns) must be evenly divisible by numShards (" ++ toString numShards ++ ")")
  else
    .ok ⟨issuersByNameID issuers, numShards, lookbackPeriod, lookforwardPeriod, updatePeriod⟩

/-!
## Streaming orchestration model

The SA (data source) and CA (generation service) are external gRPC
collaborators; one tick's interaction with them is fully described by the
behavior each stream exhibits, so they are modelled as per-shard behavior
records.  Each operation of `tickIssuer` (`updater.go` lines 206-300)
becomes a step of a pure function that also records the observable
interactions: the request used to open the SA stream, the messages
successfully sent on the CA stream, and the byte sequence assembled from
the CA's output chunks.  CRL parsing and signature checking are performed
by `crypto/x509` and the issuer certificate, outside this package, so
they enter the model as the abstract functions `parse` and `checkSig` of
the environment.
-/

/-- A revocation record, opaque to the updater core. -/
abbrev RevocationEntry := Nat

/-- A parsed CRL, reduced to what the core reads of it (the revoked
certificate list's length, used only for logging). -/
abbrev ParsedCRL := Nat

/-- The `sapb.GetRevokedCertsRequest` sent to open the SA stream; the
three timestamps are `UnixNano` values. -/
structure GetRevokedCertsRequest where
  issuerNameID : Int
  expiresAfter : Int
  expiresBefore : Int
  revokedBefore : Int
deriving DecidableEq

/-- A `capb.GenerateCRLRequest` message sent on the CA stream. -/
inductive GenerateCRLRequest where
  | metadata (issuerNameID thisUpdate : Int)
  | entry (e : RevocationEntry)
deriving DecidableEq

/-- The stage of shard processing at which a failure occurred; each stage
corresponds to one distinct error return in `tickIssuer`. -/
inductive Stage where
  | saOpen        -- "error connecting to SA"
  | caOpen        -- "error connecting to CA"
  | caMetaSend    -- "error sending CA metadata"
  | saRecv        -- "error retrieving entry from SA"
  | caEntrySend   -- "error sending entry to CA"
  | caRecvBytes   -- "failed to read CRL bytes"
  | parseCRL      -- "failed to parse CRL bytes"
  | checkSig      -- "failed to validate signature"
deriving DecidableEq

/-- The behavior of the two external streams and of the validator for one
shard's unit of work. -/
structure ShardEnv where
  saOpenOk : Bool                     -- SA stream open succeeds
  saRecvs : List RevocationEntry      -- records the SA stream yields, in order
  saEof : Bool                        -- after the records: EOF (true) or transport error
  caOpenOk : Bool                     -- CA stream open succeeds
  caMetaOk : Bool                     -- metadata send succeeds
  caEntryFail : Option Nat            -- index of the entry send that fails, if any
  caChunks : List (List Nat)          -- byte chunks the CA stream yields, in order
  caRecvEof : Bool                    -- after the chunks: EOF (true) or transport error
  parse : List Nat → Option ParsedCRL -- x509.ParseDERCRL
  checkSig : ParsedCRL → Bool         -- issuer.CheckCRLSignature

/-- The observable outcome of processing one shard. -/
structure ShardOutcomeData where
  saRequest : GetRevokedCertsRequest  -- request used to open the SA stream
  caMsgs : List GenerateCRLRequest    -- messages successfully sent to the CA
  crlBytes : Option (List Nat)        -- assembled bytes (some once assembly completed)
  err : Option Stage                  -- none = the shard succeeded
deriving DecidableEq

/-- The receive-forward loop of `tickIssuer` (lines 248-267): receive one
entry from the SA, forward it to the CA, until the SA stream ends.
Returns the entries successfully forwarded, and the stage of the failure
that ended the loop, if any. -/
def relayEntries : List RevocationEntry → Bool → Option Nat →
    List RevocationEntry × Option Stage
  | [], eof, _ => ([], if eof then none else some .saRecv)
  | _ :: _, _, some 0 => ([], some .caEntrySend)
  | e :: rest, eof, some (i + 1) =>
    let r := relayEntries rest eof (some i)
    (e :: r.1, r.2)
  | e :: rest, eof, none =>
    let r := relayEntries rest eof none
    (e :: r.1, r.2)

/-- The body of the per-shard loop of `tickIssuer` (lines 216-296): open
the SA stream with the shard's window, open the CA stream, send the
metadata message, relay every entry, assemble the output chunks, parse,
and check the signature, stopping at the first failure. -/
def processShard (id atTime expiresAfter expiresBefore : Int) (env : ShardEnv) :
    ShardOutcomeData :=
  let req : GetRevokedCertsRequest :=
    ⟨id, unixNano expiresAfter, unixNano expiresBefore, unixNano atTime⟩
  if env.saOpenOk = false then ⟨req, [], none, some .saOpen⟩
  else if env.caOpenOk = false then ⟨req, [], none, some .caOpen⟩
  else if env.caMetaOk = false then ⟨req, [], none, some .caMetaSend⟩
  else
    let meta := GenerateCRLRequest.metadata id (unixNano atTime)
    let relayed := relayEntries env.saRecvs env.saEof env.caEntryFail
    let sentMsgs := meta :: relayed.1.map GenerateCRLRequest.entry
    match relayed.2 with
    | some st => ⟨req, sentMsgs, none, some st⟩
    | none =>
      if env.caRecvEof = false then ⟨req, sentMsgs, none, some .caRecvBytes⟩
      else
        let crlBytes := env.caChunks.foldl (fun acc c => acc ++ c) []
        match env.parse crlBytes with
        | none => ⟨req, sentMsgs, some crlBytes, some .parseCRL⟩
        | some crl =>
          if env.checkSig crl then ⟨req, sentMsgs, some crlBytes, none⟩
          else ⟨req, sentMsgs, some crlBytes, some .checkSig⟩

/-- The outcome of one issuer's tick: the shards actually processed (in
order, with their outcomes), and the error that ended the loop early, if
any.  `err = none` corresponds to `tickIssuer` returning `nil`. -/
structure IssuerTickResult where
  shardResults : List (Int × ShardOutcomeData)
  err : Option (Int × Stage)
deriving DecidableEq

/-- The shard loop of `tickIssuer`: process the given shard IDs in order,
returning at the first failure (mirroring the `return fmt.Errorf(...)`
statements). -/
def runShards (cu : CrlUpdaterConfig) (id atTime : Int) (env : Int → ShardEnv) :
    List Int → IssuerTickResult
  | [] => ⟨[], none⟩
  | i :: rest =>
    let w := getWindowForShard cu atTime i
    let r := processShard id atTime w.1 w.2 (env i)
    match r.err with
    | some st => ⟨[(i, r)], some (i, st)⟩
    | none =>
      let rec' := runShards cu id atTime env rest
      ⟨(i, r) :: rec'.shardResults, rec'.err⟩

/-- The shard IDs `0, 1, ..., n-1` iterated by `tickIssuer`'s `for` loop. -/
def shardIDList (n : Int) : List Int := (List.range n.toNat).map Int.ofNat

/-- `tickIssuer` (lines 206-300) for one issuer at one reference time. -/
def tickIssuer (cu : CrlUpdaterConfig) (atTime id : Int) (env : Int → ShardEnv) :
    IssuerTickResult :=
  runShards cu id atTime env (shardIDList cu.numShards)

/-- The outcome of one full tick: every issuer's result, and the `result`
label observed by the tick histogram. -/
structure TickResult where
  issuerResults : List (Int × IssuerTickResult)
  result : String
deriving DecidableEq

/-- `tick` (lines 105-127): process every configured issuer — the loop
body only logs and flips the result label on failure, it never breaks, so
every issuer is processed regardless of earlier failures.  Issuer
enumeration order and the per-iteration clock reading are abstracted as
the `issuerIDs` list and the `atTimeOf` function. -/
def tick (cu : CrlUpdaterConfig) (issuerIDs : List Int)
    (envs : Int → Int → ShardEnv) (atTimeOf : Int → Int) : TickResult :=
  let rs := issuerIDs.map fun id => (id, tickIssuer cu (atTimeOf id) id (envs id))
  ⟨rs, if rs.any (fun p => p.2.err.isSome) then "failed" else "success"⟩

/-!
## Concrete scenario fixtures
-/

/-- A shard environment in which every stage succeeds: no revoked
certificates, one output chunk `[9]` that parses as an empty CRL whose
signature checks out. -/
def okShardEnv : ShardEnv :=
  ⟨true, [], true, true, true, none, [[9]], true,
    (fun b => if b = [9] then some 0 else none), (fun c => c == 0)⟩

/-- The validator of the end-to-end scenario: the byte sequence
`[4, 5, 6]` parses as a CRL with 3 entries, `[9]` parses as a well-formed
empty CRL, and the issuer's key matches only the signer of the empty one
(so the signature check rejects shard 0's bytes). -/
def scenarioParse : List Nat → Option ParsedCRL :=
  fun b => if b = [4, 5, 6] then some 3 else if b = [9] then some 0 else none

/-- Per-shard environments of the end-to-end scenario (claim C2): shard 0
yields 3 records and the fixed byte sequence `[4, 5, 6]` whose signer does
not match the issuer's key; shard 1 yields 0 records and a well-formed
empty CRL that verifies. -/
def scenarioEnv : Int → ShardEnv :=
  fun i =>
    if i = 0 then
      ⟨true, [1, 2, 3], true, true, true, none, [[4, 5, 6]], true,
        scenarioParse, (fun c => c == 0)⟩
    else
      ⟨true, [], true, true, true, none, [[9]], true,
        scenarioParse, (fun c => c == 0)⟩

/-- Per-shard environments for the failure-isolation scenario (claim C1):
shard 0 suffers a transport error while reading from the SA stream, every
other shard succeeds. -/
def saReadErrEnv : Int → ShardEnv :=
  fun i =>
    if i = 0 then
      ⟨true, [], false, true, true, none, [[9]], true,
        (fun b => if b = [9] then some 0 else none), (fun c => c == 0)⟩
    else okShardEnv

/-- Per-issuer environments for the failure-isolation scenario: issuer 1
("issuer A") hits the SA read error on its first shard, issuer 2
("issuer B") is healthy throughout. -/
def isolationEnvs : Int → Int → ShardEnv :=
  fun id => if id = 1 then saReadErrEnv else fun _ => okShardEnv

/-!
## Claim theorems: concrete evaluations
-/

/-- Claim C6 (confirmed): with lookback 0, lookforward 10, and 5 shards,
at reference time 0 the five shards are `[0,2), [2,4), [4,6), [6,8),
[8,10)`; at reference time 11 shard 0 is returned as `[10,12)` unshifted
because it already overlaps the window `[11,21)`; and at reference time
11 every shard whose candidate chunk ends strictly behind `t - lookback
= 11` is returned shifted forward by the full window width of 10. -/
theorem getWindowForShard_concrete_scenarios :
    (getWindowForShard ⟨5, 0, 10⟩ 0 0 = (0, 2) ∧
     getWindowForShard ⟨5, 0, 10⟩ 0 1 = (2, 4) ∧
     getWindowForShard ⟨5, 0, 10⟩ 0 2 = (4, 6) ∧
     getWindowForShard ⟨5, 0, 10⟩ 0 3 = (6, 8) ∧
     getWindowForShard ⟨5, 0, 10⟩ 0 4 = (8, 10)) ∧
    getWindowForShard ⟨5, 0, 10⟩ 11 0 = (10, 12) ∧
    (∀ k : Fin 5,
      getWindowForShard ⟨5, 0, 10⟩ 11 (k : Int) =
        if (shardCandidate ⟨5, 0, 10⟩ 11 (k : Int)).2 < 11 then
          ((shardCandidate ⟨5, 0, 10⟩ 11 (k : Int)).1 + 10,
           (shardCandidate ⟨5, 0, 10⟩ 11 (k : Int)).2 + 10)
        else shardCandidate ⟨5, 0, 10⟩ 11 (k : Int)) := by
  refine ⟨by decide, by decide, by decide⟩

/-- Claim C3 (code bug): with lookback 0, lookforward 10, 5 shards, at
reference time 2 and shard ID 0, the returned interval `[0,2)` has empty
overlap with the observation window `[2,12)`: the shift test compares
with strict `<`, so a candidate chunk ending exactly at `atTime -
lookbackPeriod` is kept even though it no longer overlaps the window,
contradicting the function's own documentation ("always treats the
leftmost chunk with the given ID that has any overlap with the current
window as the current shard"). -/
theorem getWindowForShard_returns_non_overlapping_chunk :
    getWindowForShard ⟨5, 0, 10⟩ 2 0 = (0, 2) ∧
    Set.Ico (0 : Int) 2 ∩ Set.Ico (2 : Int) 12 = ∅ := by
  refine ⟨by decide, ?_⟩
  rw [Set.Ico_inter_Ico]
  apply Set.Ico_eq_empty
  norm_num

/-- Claim C4 (code bug): with lookback 0, lookforward 10, 5 shards, the
chunk instance `[10,12)` of shard ID 0 overlaps both the window `[2,12)`
of reference time 2 and the window `[3,13)` of reference time 3, yet
`getWindowForShard` returns `(0,2)` at time 2 and `(10,12)` at time 3 —
the boundaries are not stable, contradicting the function's own
documentation ("the boundaries of each chunk remain stable"). -/
theorem getWindowForShard_not_stable :
    ((10 : Int) ∈ Set.Ico (10 : Int) 12 ∩ Set.Ico (2 : Int) 12) ∧
    ((10 : Int) ∈ Set.Ico (10 : Int) 12 ∩ Set.Ico (3 : Int) 13) ∧
    (10 : Int) = 0 * 2 + 1 * 10 ∧
    getWindowForShard ⟨5, 0, 10⟩ 2 0 = (0, 2) ∧
    getWindowForShard ⟨5, 0, 10⟩ 3 0 = (10, 12) ∧
    getWindowForShard ⟨5, 0, 10⟩ 2 0 ≠ getWindowForShard ⟨5, 0, 10⟩ 3 0 := by
  refine ⟨?_, ?_, by norm_num, by decide, by decide, by decide⟩
  · simp [Set.mem_Ico]
  · simp [Set.mem_Ico]

/-- Claim C9, counterexample: with lookback 10, lookforward 0, 5 shards,
at reference time 10, the negative shard ID -1 yields `[8,10)` while its
canonical residue 4 modulo 5 yields `[18,20)`: Go's `%` is a truncated
remainder, so negative shard IDs are not normalized into `[0,
numShards)`. -/
theorem getWindowForShard_negative_shardID_not_normalized :
    getWindowForShard ⟨5, 10, 0⟩ 10 (-1) = (8, 10) ∧
    getWindowForShard ⟨5, 10, 0⟩ 10 4 = (18, 20) ∧
    (-1 : Int) % 5 = 4 ∧
    getWindowForShard ⟨5, 10, 0⟩ 10 (-1) ≠ getWindowForShard ⟨5, 10, 0⟩ 10 4 := by
  refine ⟨by decide, by decide, by decide, by decide⟩

/-- Claim C10, counterexample: at reference time `2^63` nanoseconds past
the zero value, `atTime.Sub(time.Time{})` saturates at the maximum
`Duration`, so with lookback 0, lookforward 10, 5 shards, and shard ID 0
the returned start `2^63 + 3` is not congruent to `shardID * shardWidth
= 0` modulo the window width 10: the chunk grid is no longer anchored to
the zero value once the offset leaves the `Duration` range. -/
theorem getWindowForShard_not_anchored_beyond_duration_range :
    getWindowForShard ⟨5, 0, 10⟩ (2 ^ 63) 0 = (2 ^ 63 + 3, 2 ^ 63 + 5) ∧
    ((getWindowForShard ⟨5, 0, 10⟩ (2 ^ 63) 0).1 - 0) % 10 ≠ 0 * 2 % 10 := by
  refine ⟨by decide, by decide⟩

/-- Claim C2, counterexample: in the end-to-end scenario (2 shards, 3
records and an unverifiable byte sequence for shard 0, a verifiable empty
CRL for shard 1), the orchestrator stops at shard 0's signature failure
and returns: shard 1 is never attempted, so it is not reported as
succeeded — the claim's expected per-shard outcome does not match the
code. -/
theorem tickIssuer_scenario_shard1_not_attempted :
    (tickIssuer ⟨2, 0, 10⟩ 0 7 scenarioEnv).err = some (0, .checkSig) ∧
    (tickIssuer ⟨2, 0, 10⟩ 0 7 scenarioEnv).shardResults.map Prod.fst = [0] := by
  refine ⟨by decide, by decide⟩

/-- Claim C2, amended: in the end-to-end scenario the orchestrator
reports shard 0 as failed at the signature stage, aborts the issuer
without attempting shard 1 (which would have succeeded had it been
processed: its environment alone yields no error), and the issuer's
overall tick outcome is "failed". -/
theorem tickIssuer_scenario_amended :
    (tickIssuer ⟨2, 0, 10⟩ 0 7 scenarioEnv).err = some (0, .checkSig) ∧
    (tickIssuer ⟨2, 0, 10⟩ 0 7 scenarioEnv).shardResults.map Prod.fst = [0] ∧
    (processShard 7 0 (getWindowForShard ⟨2, 0, 10⟩ 0 1).1
      (getWindowForShard ⟨2, 0, 10⟩ 0 1).2 (scenarioEnv 1)).err = none ∧
    (tick ⟨2, 0, 10⟩ [7] (fun _ => scenarioEnv) (fun _ => 0)).result = "failed" := by
  refine ⟨by decide, by decide, by decide, by decide⟩

/-- Claim C1, counterexample: a transport error while reading shard 0 of
issuer 1 makes `tickIssuer` return immediately, so shard 1 of issuer 1 is
not attempted in that tick (the claim requires it to be), while both
shards of issuer 2 are still attempted. -/
theorem tick_shard_failure_aborts_issuer :
    (tick ⟨2, 0, 10⟩ [1, 2] isolationEnvs (fun _ => 0)).issuerResults.map
        (fun p => (p.1, p.2.shardResults.map Prod.fst, p.2.err)) =
      [(1, [0], some (0, .saRecv)), (2, [0, 1], none)] ∧
    (tick ⟨2, 0, 10⟩ [1, 2] isolationEnvs (fun _ => 0)).result = "failed" := by
  refine ⟨by decide, by decide⟩

/-- Claim C5, counterexample: with lookback 0, lookforward 10, 5 shards,
at reference time 3 the five returned intervals are `[10,12), [2,4),
[4,6), [6,8), [8,10)`; their union is `[2,12)`, so the point 12, which
lies in the observation window `[3,13)`, is covered by none of them — the
union does not tile the observation window. -/
theorem getWindowForShard_union_gap :
    getWindowForShard ⟨5, 0, 10⟩ 3 0 = (10, 12) ∧
    getWindowForShard ⟨5, 0, 10⟩ 3 1 = (2, 4) ∧
    getWindowForShard ⟨5, 0, 10⟩ 3 2 = (4, 6) ∧
    getWindowForShard ⟨5, 0, 10⟩ 3 3 = (6, 8) ∧
    getWindowForShard ⟨5, 0, 10⟩ 3 4 = (8, 10) ∧
    ((3 : Int) ≤ 12 ∧ (12 : Int) < 3 + 10) ∧
    (∀ k : Fin 5,
      ¬((getWindowForShard ⟨5, 0, 10⟩ 3 (k : Int)).1 ≤ 12 ∧
        (12 : Int) < (getWindowForShard ⟨5, 0, 10⟩ 3 (k : Int)).2)) := by
  refine ⟨by decide, by decide, by decide, by decide, by decide, by decide, by decide⟩

/-- Helper: on values inside the 64-bit range, the wraparound is the
identity. -/
theorem wrap64_eq_of_range (x : Int) (h1 : minDuration ≤ x) (h2 : x ≤ maxDuration) :
    wrap64 x = x := by
  have e1 : minDuration = -9223372036854775808 := by norm_num [minDuration]
  have e2 : maxDuration = 9223372036854775807 := by norm_num [maxDuration]
  rw [e1] at h1
  rw [e2] at h2
  unfold wrap64
  have e3 : (2 : Int) ^ 63 = 9223372036854775808 := by norm_num
  have e4 : (2 : Int) ^ 64 = 18446744073709551616 := by norm_num
  rw [e3, e4, Int.emod_eq_of_lt (by omega) (by omega)]
  omega

/-- Claim C7, counterexample: with 3 shards, lookback `2^62` and
lookforward `2^62 + 1` (both valid `Duration` values), the exact sum
`2^63 + 1` is evenly divisible by 3, the shard count is positive, and
the update period 0 is below 7 days — yet `NewUpdater` returns an
error: Go adds the two `int64` durations with wraparound, giving
`-(2^63 - 1)`, whose truncated remainder by 3 is `-1`. -/
theorem NewUpdater_wrap_rejects_divisible :
    (3 : Int) ∣ ((2 : Int) ^ 62 + ((2 : Int) ^ 62 + 1)) ∧
    1 ≤ (3 : Int) ∧ (0 : Int) < sevenDays ∧
    wrap64 ((2 : Int) ^ 62 + ((2 : Int) ^ 62 + 1)) = -(2 ^ 63 - 1) ∧
    (NewUpdater [] 3 (2 ^ 62) (2 ^ 62 + 1) 0).toOption.isNone = true := by
  refine ⟨by norm_num, by decide, by decide, by decide, by decide⟩

/-- Claim C7, amended (proved): `NewUpdater` succeeds exactly when the
shard count is at least 1, the update period is shorter than 7 days, and
the wrapped `int64` sum of lookback and lookforward is evenly divisible
by the shard count — for every issuer list, including the empty one and
lists with duplicate name IDs (which `issuersByNameID` deduplicates,
keeping the last entry per name ID); when the sum of the two periods
fits in the `Duration` range, the criterion is divisibility of the exact
sum, as the claim states. -/
theorem NewUpdater_ok_iff_wrapped :
    ∀ (issuers : List IssuerCert) (n lb lf up : Int),
      ((∃ u, NewUpdater issuers n lb lf up = .ok u) ↔
        1 ≤ n ∧ up < sevenDays ∧ n ∣ wrap64 (lb + lf)) ∧
      (minDuration ≤ lb + lf → lb + lf ≤ maxDuration →
        ((∃ u, NewUpdater issuers n lb lf up = .ok u) ↔
          1 ≤ n ∧ up < sevenDays ∧ n ∣ (lb + lf))) := by
  intro issuers n lb lf up
  have main : (∃ u, NewUpdater issuers n lb lf up = .ok u) ↔
      1 ≤ n ∧ up < sevenDays ∧ n ∣ wrap64 (lb + lf) := by
    constructor
    · rintro ⟨u, hu⟩
      by_cases h1 : n < 1
      · simp [NewUpdater, h1] at hu
      · by_cases h2 : sevenDays ≤ up
        · simp [NewUpdater, h1, h2] at hu
        · by_cases h3 : Int.tmod (wrap64 (lb + lf)) n = 0
          · exact ⟨by omega, by omega, Int.dvd_of_tmod_eq_zero h3⟩
          · simp [NewUpdater, h1, h2, h3] at hu
    · rintro ⟨hn, hup, hdvd⟩
      have h3 : Int.tmod (wrap64 (lb + lf)) n = 0 := Int.tmod_eq_zero_of_dvd hdvd
      refine ⟨⟨issuersByNameID issuers, n, lb, lf, up⟩, ?_⟩
      unfold NewUpdater
      rw [if_neg (by omega), if_neg (by omega), if_neg (by simp [h3])]
  refine ⟨main, ?_⟩
  intro h1 h2
  rw [main, wrap64_eq_of_range (lb + lf) h1 h2]

/-- Witness for `NewUpdater_ok_iff_wrapped`: the in-range part at a
5-shard configuration with window width 10. -/
theorem NewUpdater_ok_iff_wrapped_witness :
    minDuration ≤ (0 : Int) + 10 ∧ (0 : Int) + 10 ≤ maxDuration ∧
    ((∃ u, NewUpdater [] 5 0 10 0 = .ok u) ↔
      1 ≤ (5 : Int) ∧ (0 : Int) < sevenDays ∧ (5 : Int) ∣ ((0 : Int) + 10)) :=
  ⟨by decide, by decide,
    (NewUpdater_ok_iff_wrapped [] 5 0 10 0).2 (by decide) (by decide)⟩

/-- Claim C9, amended (proved): for nonnegative shard IDs the window is
the one of the canonical residue of the shard ID modulo the shard count:
Go's truncated `%` agrees with the canonical residue on nonnegative
arguments. -/
theorem getWindowForShard_mod_shardID :
    ∀ (cu : CrlUpdaterConfig) (t s : Int), 0 ≤ s → 1 ≤ cu.numShards →
      getWindowForShard cu t s = getWindowForShard cu t (s % cu.numShards) := by
  intro cu t s hs hn
  have hmm : Int.tmod s cu.numShards = Int.tmod (s % cu.numShards) cu.numShards := by
    rw [Int.tmod_eq_emod hs (by omega),
      Int.tmod_eq_emod (Int.emod_nonneg s (by omega)) (by omega),
      Int.emod_emod_of_dvd s dvd_rfl]
  unfold getWindowForShard shardCandidate
  rw [hmm]

/-- Witness for `getWindowForShard_mod_shardID` at shard ID 7 with 5
shards. -/
theorem getWindowForShard_mod_shardID_witness :
    (0 : Int) ≤ 7 ∧ (1 : Int) ≤ 5 ∧
    getWindowForShard ⟨5, 0, 10⟩ 3 7 = getWindowForShard ⟨5, 0, 10⟩ 3 (7 % 5) :=
  ⟨by decide, by decide, getWindowForShard_mod_shardID ⟨5, 0, 10⟩ 3 7 (by decide) (by decide)⟩

/-- Claim C10, amended (proved): for reference times whose offset from
the zero value fits in the `Duration` range, and window widths that are
nonzero and fit in the `Duration` range (so that Go's `int64` addition
of the two periods does not wrap and its `%` does not panic), every
returned window has width exactly `(lookback+lookforward)/numShards`
and its start is congruent to `shardID * shardWidth` modulo the window
width — the boundaries lie on the epoch-anchored chunk grid. -/
theorem getWindowForShard_width_and_grid :
    ∀ (cu : CrlUpdaterConfig) (t k : Int),
      1 ≤ cu.numShards →
      cu.numShards ∣ (cu.lookbackPeriod + cu.lookforwardPeriod) →
      0 ≤ k → k < cu.numShards →
      minDuration ≤ t → t ≤ maxDuration →
      minDuration ≤ cu.lookbackPeriod + cu.lookforwardPeriod →
      cu.lookbackPeriod + cu.lookforwardPeriod ≤ maxDuration →
      cu.lookbackPeriod + cu.lookforwardPeriod ≠ 0 →
      (getWindowForShard cu t k).2 = (getWindowForShard cu t k).1 +
        Int.tdiv (cu.lookbackPeriod + cu.lookforwardPeriod) cu.numShards ∧
      ((getWindowForShard cu t k).1 - 0) %
          (cu.lookbackPeriod + cu.lookforwardPeriod) =
        (k * Int.tdiv (cu.lookbackPeriod + cu.lookforwardPeriod) cu.numShards) %
          (cu.lookbackPeriod + cu.lookforwardPeriod) := by
  intro cu t k hn _hdvd hk0 hkn htmin htmax hWmin hWmax _hWne
  have hwrap : wrap64 (cu.lookbackPeriod + cu.lookforwardPeriod) =
      cu.lookbackPeriod + cu.lookforwardPeriod :=
    wrap64_eq_of_range _ hWmin hWmax
  have hmax : maxDuration = 9223372036854775807 := by norm_num [maxDuration]
  have hmin : minDuration = -9223372036854775808 := by norm_num [minDuration]
  rw [hmax] at htmax
  rw [hmin] at htmin
  have hsub : timeSub t 0 = t := by
    unfold timeSub
    rw [hmax, hmin, if_neg (by omega), if_neg (by omega)]
    omega
  have hk' : Int.tmod k cu.numShards = k := by
    rw [Int.tmod_eq_emod hk0 (by omega)]
    exact Int.emod_eq_of_lt hk0 hkn
  simp only [getWindowForShard, shardCandidate, hsub, hk', hwrap]
  set W : Int := cu.lookbackPeriod + cu.lookforwardPeriod with hWdef
  set w : Int := Int.tdiv W cu.numShards with hwdef
  constructor
  · split_ifs <;> dsimp only <;> ring
  · rw [sub_zero]
    split_ifs with hsh
    · dsimp only
      have he : t + -Int.tmod t W + k * w + W = k * w + W * (Int.tdiv t W + 1) := by
        rw [Int.tmod_def]
        ring
      rw [he, Int.add_mul_emod_self_left]
    · dsimp only
      have he : t + -Int.tmod t W + k * w = k * w + W * Int.tdiv t W := by
        rw [Int.tmod_def]
        ring
      rw [he, Int.add_mul_emod_self_left]

/-- Witness for `getWindowForShard_width_and_grid` with 5 shards,
lookback 0, lookforward 10, reference time 11, shard ID 3. -/
theorem getWindowForShard_width_and_grid_witness :
    (1 ≤ (5 : Int) ∧ (5 : Int) ∣ (0 + 10) ∧ (0 : Int) ≤ 3 ∧ (3 : Int) < 5 ∧
      minDuration ≤ (11 : Int) ∧ (11 : Int) ≤ maxDuration ∧
      minDuration ≤ (0 : Int) + 10 ∧ (0 : Int) + 10 ≤ maxDuration ∧
      (0 : Int) + 10 ≠ 0) ∧
    ((getWindowForShard ⟨5, 0, 10⟩ 11 3).2 = (getWindowForShard ⟨5, 0, 10⟩ 11 3).1 +
        Int.tdiv (0 + 10) 5 ∧
      ((getWindowForShard ⟨5, 0, 10⟩ 11 3).1 - 0) % (0 + 10) =
        (3 * Int.tdiv (0 + 10) 5) % (0 + 10)) :=
  ⟨⟨by decide, by decide, by decide, by decide, by decide, by decide, by decide,
      by decide, by decide⟩,
    getWindowForShard_width_and_grid ⟨5, 0, 10⟩ 11 3 (by decide) (by decide)
      (by decide) (by decide) (by decide) (by decide) (by decide) (by decide)
      (by decide)⟩

/-!
## The shard loop: helper lemmas
-/

/-- Helper: a prefix of `List.range` is again a range. -/
theorem range_take (m n : Nat) (h : m ≤ n) :
    (List.range n).take m = List.range m := by
  apply List.ext_getElem?
  intro k
  by_cases hk : k < m
  · rw [List.getElem?_take_of_lt hk, List.getElem?_range (lt_of_lt_of_le hk h),
      List.getElem?_range hk]
  · rw [List.getElem?_eq_none, List.getElem?_eq_none]
    · simpa [List.length_range] using Nat.le_of_not_lt hk
    · simp only [List.length_take, List.length_range]
      omega

/-- Helper: when the receive-forward loop ends without error, the SA
stream reached EOF and every record it yielded was forwarded. -/
theorem relayEntries_ok :
    ∀ (l : List RevocationEntry) (eof : Bool) (f : Option Nat),
      (relayEntries l eof f).2 = none →
      (relayEntries l eof f).1 = l ∧ eof = true := by
  intro l
  induction l with
  | nil =>
    intro eof f h
    cases eof with
    | true => exact ⟨rfl, rfl⟩
    | false => simp [relayEntries] at h
  | cons e rest ih =>
    intro eof f h
    match f with
    | some 0 => simp [relayEntries] at h
    | some (i + 1) =>
      simp only [relayEntries] at h ⊢
      obtain ⟨h1, h2⟩ := ih eof (some i) h
      exact ⟨by rw [h1], h2⟩
    | none =>
      simp only [relayEntries] at h ⊢
      obtain ⟨h1, h2⟩ := ih eof none h
      exact ⟨by rw [h1], h2⟩

/-- Helper: the chunk-append loop concatenates the chunks in receipt
order. -/
theorem foldl_append_join :
    ∀ (L : List (List Nat)) (acc : List Nat),
      L.foldl (fun a c => a ++ c) acc = acc ++ L.flatten := by
  intro L
  induction L with
  | nil => intro acc; simp
  | cons c rest ih => intro acc; simp [List.foldl_cons, ih, List.append_assoc]

/-- Helper: a shard processed without failure produced exactly the
protocol-mandated observables: the SA request built from its window, the
metadata message followed by every record in order, and the
concatenation of all output chunks. -/
theorem processShard_ok_spec :
    ∀ (id atTime a b : Int) (env : ShardEnv),
      (processShard id atTime a b env).err = none →
      processShard id atTime a b env =
        ⟨⟨id, unixNano a, unixNano b, unixNano atTime⟩,
         .metadata id (unixNano atTime) :: env.saRecvs.map .entry,
         some env.caChunks.flatten, none⟩ := by
  intro id atTime a b env h
  by_cases h1 : env.saOpenOk = false
  · simp only [processShard, if_pos h1] at h
    exact Option.noConfusion h
  · by_cases h2 : env.caOpenOk = false
    · simp only [processShard, if_neg h1, if_pos h2] at h
      exact Option.noConfusion h
    · by_cases h3 : env.caMetaOk = false
      · simp only [processShard, if_neg h1, if_neg h2, if_pos h3] at h
        exact Option.noConfusion h
      · cases hrel : (relayEntries env.saRecvs env.saEof env.caEntryFail).2 with
        | some st =>
          simp only [processShard, if_neg h1, if_neg h2, if_neg h3, hrel] at h
          exact Option.noConfusion h
        | none =>
          obtain ⟨hfwd, _heof⟩ := relayEntries_ok env.saRecvs env.saEof env.caEntryFail hrel
          by_cases h4 : env.caRecvEof = false
          · simp only [processShard, if_neg h1, if_neg h2, if_neg h3, hrel, if_pos h4] at h
            exact Option.noConfusion h
          · cases hp : env.parse (env.caChunks.foldl (fun acc c => acc ++ c) []) with
            | none =>
              simp only [processShard, if_neg h1, if_neg h2, if_neg h3, hrel, if_neg h4,
                hp] at h
              exact Option.noConfusion h
            | some crl =>
              by_cases h5 : env.checkSig crl = true
              · simp only [processShard, if_neg h1, if_neg h2, if_neg h3, hrel, if_neg h4,
                  hp, if_pos h5, hfwd]
                have hj : env.caChunks.foldl (fun acc c => acc ++ c) [] =
                    env.caChunks.flatten := by
                  rw [foldl_append_join]
                  simp
                rw [hj]
              · simp only [processShard, if_neg h1, if_neg h2, if_neg h3, hrel, if_neg h4,
                  hp, if_neg h5] at h
                exact Option.noConfusion h

/-- Helper: every pair recorded by the shard loop is the outcome of
`processShard` on that shard's window and environment. -/
theorem runShards_mem_spec (cu : CrlUpdaterConfig) (id atTime : Int) (env : Int → ShardEnv) :
    ∀ (ids : List Int) (i : Int) (r : ShardOutcomeData),
      (i, r) ∈ (runShards cu id atTime env ids).shardResults →
      r = processShard id atTime (getWindowForShard cu atTime i).1
        (getWindowForShard cu atTime i).2 (env i) := by
  intro ids
  induction ids with
  | nil => intro i r hm; simp [runShards] at hm
  | cons i0 rest ih =>
    intro i r hm
    cases hr : (processShard id atTime (getWindowForShard cu atTime i0).1
        (getWindowForShard cu atTime i0).2 (env i0)).err with
    | some st =>
      simp only [runShards, hr] at hm
      simp only [List.mem_singleton, Prod.mk.injEq] at hm
      obtain ⟨hi, hrr⟩ := hm
      subst hi
      exact hrr
    | none =>
      simp only [runShards, hr] at hm
      rcases List.mem_cons.mp hm with he | he
      · rw [Prod.mk.injEq] at he
        obtain ⟨hi, hrr⟩ := he
        subst hi
        exact hrr
      · exact ih i r he

/-- Helper: when the shard loop reports no error, every ID in the list
was processed, in order, and every shard succeeded. -/
theorem runShards_ok_spec (cu : CrlUpdaterConfig) (id atTime : Int) (env : Int → ShardEnv) :
    ∀ ids : List Int, (runShards cu id atTime env ids).err = none →
      (runShards cu id atTime env ids).shardResults.map Prod.fst = ids ∧
      ∀ p ∈ (runShards cu id atTime env ids).shardResults, p.2.err = none := by
  intro ids
  induction ids with
  | nil =>
    intro _
    exact ⟨rfl, by intro p hp; simp [runShards] at hp⟩
  | cons i0 rest ih =>
    intro h
    cases hr : (processShard id atTime (getWindowForShard cu atTime i0).1
        (getWindowForShard cu atTime i0).2 (env i0)).err with
    | some st =>
      simp only [runShards, hr] at h
      exact Option.noConfusion h
    | none =>
      simp only [runShards, hr] at h ⊢
      obtain ⟨h1, h2⟩ := ih h
      refine ⟨by simp [h1], ?_⟩
      intro p hp
      rcases List.mem_cons.mp hp with he | he
      · subst he
        exact hr
      · exact h2 p he

/-- Helper: when the shard loop stops with an error, it stopped at some
position `kk`: exactly the IDs up to and including position `kk` were
attempted, every other attempted shard succeeded, and the shard at
position `kk` failed with the reported stage. -/
theorem runShards_err_spec (cu : CrlUpdaterConfig) (id atTime : Int) (env : Int → ShardEnv) :
    ∀ (ids : List Int) (j : Int) (st : Stage),
      (runShards cu id atTime env ids).err = some (j, st) →
      ∃ kk : Nat, ids[kk]? = some j ∧
        (runShards cu id atTime env ids).shardResults.map Prod.fst = ids.take (kk + 1) ∧
        (∀ p ∈ (runShards cu id atTime env ids).shardResults, p.1 ≠ j → p.2.err = none) ∧
        (processShard id atTime (getWindowForShard cu atTime j).1
          (getWindowForShard cu atTime j).2 (env j)).err = some st := by
  intro ids
  induction ids with
  | nil => intro j st h; exact Option.noConfusion h
  | cons i0 rest ih =>
    intro j st h
    cases hr : (processShard id atTime (getWindowForShard cu atTime i0).1
        (getWindowForShard cu atTime i0).2 (env i0)).err with
    | some st' =>
      simp only [runShards, hr] at h ⊢
      injection h with h'
      injection h' with hj hst
      subst hj
      subst hst
      refine ⟨0, by simp, by simp, ?_, hr⟩
      intro p hp hne
      simp only [List.mem_singleton] at hp
      subst hp
      exact absurd rfl hne
    | none =>
      simp only [runShards, hr] at h ⊢
      obtain ⟨kk, hk1, hk2, hk3, hk4⟩ := ih j st h
      refine ⟨kk + 1, by simpa using hk1, ?_, ?_, hk4⟩
      · simp only [List.map_cons, List.take_succ_cons, hk2]
      · intro p hp hne
        rcases List.mem_cons.mp hp with he | he
        · subst he
          exact hr
        · exact hk3 p he hne

/-- Claim C1, amended (proved): within one tick, one issuer's shards are
processed in increasing order only up to and including the first failing
shard — `tickIssuer` returns at the first failure, so later shards of
that issuer are not attempted; when no shard fails, all `numShards`
shards are processed; and the tick loop always runs `tickIssuer` for
every configured issuer regardless of other issuers' failures, marking
the tick failed exactly when some issuer failed. -/
theorem tickIssuer_first_failure_aborts_and_issuers_isolated :
    ∀ (cu : CrlUpdaterConfig) (atTime id : Int) (env : Int → ShardEnv),
      ((tickIssuer cu atTime id env).err = none →
        (tickIssuer cu atTime id env).shardResults.map Prod.fst =
          shardIDList cu.numShards ∧
        ∀ p ∈ (tickIssuer cu atTime id env).shardResults, p.2.err = none) ∧
      (∀ (j : Int) (st : Stage),
        (tickIssuer cu atTime id env).err = some (j, st) →
        0 ≤ j ∧ j < cu.numShards ∧
        (tickIssuer cu atTime id env).shardResults.map Prod.fst =
          shardIDList (j + 1) ∧
        (∀ p ∈ (tickIssuer cu atTime id env).shardResults, p.1 ≠ j → p.2.err = none) ∧
        (processShard id atTime (getWindowForShard cu atTime j).1
          (getWindowForShard cu atTime j).2 (env j)).err = some st) ∧
      (∀ (issuerIDs : List Int) (envs : Int → Int → ShardEnv) (atTimeOf : Int → Int),
        (tick cu issuerIDs envs atTimeOf).issuerResults =
          issuerIDs.map (fun i => (i, tickIssuer cu (atTimeOf i) i (envs i))) ∧
        ((tick cu issuerIDs envs atTimeOf).result = "failed" ↔
          ∃ q ∈ (tick cu issuerIDs envs atTimeOf).issuerResults, q.2.err.isSome)) := by
  intro cu atTime id env
  refine ⟨?_, ?_, ?_⟩
  · intro h
    exact runShards_ok_spec cu id atTime env (shardIDList cu.numShards) h
  · intro j st h
    simp only [tickIssuer] at h ⊢
    obtain ⟨kk, hk1, hk2, hk3, hk4⟩ :=
      runShards_err_spec cu id atTime env (shardIDList cu.numShards) j st h
    have hlen : (shardIDList cu.numShards).length = cu.numShards.toNat := by
      simp [shardIDList]
    obtain ⟨hkk, _⟩ := List.getElem?_eq_some_iff.mp hk1
    rw [hlen] at hkk
    have hj : j = (kk : Int) := by
      have hgk : (shardIDList cu.numShards)[kk]? = some (Int.ofNat kk) := by
        simp [shardIDList, List.getElem?_range hkk]
      rw [hgk] at hk1
      rw [Int.ofNat_eq_coe] at hk1
      exact (Option.some.inj hk1).symm
    have hj0 : 0 ≤ j := by omega
    have hjn : j < cu.numShards := by omega
    refine ⟨hj0, hjn, ?_, hk3, hk4⟩
    have htake : (shardIDList cu.numShards).take (kk + 1) = shardIDList (j + 1) := by
      simp only [shardIDList, ← List.map_take,
        range_take (kk + 1) cu.numShards.toNat (by omega)]
      have hsucc : (j + 1).toNat = kk + 1 := by omega
      rw [hsucc]
    rw [hk2, htake]
  · intro issuerIDs envs atTimeOf
    refine ⟨rfl, ?_⟩
    constructor
    · intro hres
      by_cases hany : (issuerIDs.map fun i =>
          (i, tickIssuer cu (atTimeOf i) i (envs i))).any (fun p => p.2.err.isSome) = true
      · obtain ⟨q, hqm, hq⟩ := List.any_eq_true.mp hany
        exact ⟨q, hqm, hq⟩
      · simp only [tick, if_neg hany] at hres
        exact absurd hres (by decide)
    · rintro ⟨q, hqm, hq⟩
      have hany : (issuerIDs.map fun i =>
          (i, tickIssuer cu (atTimeOf i) i (envs i))).any (fun p => p.2.err.isSome) = true :=
        List.any_eq_true.mpr ⟨q, hqm, hq⟩
      simp only [tick, if_pos hany]

/-- Witness for `tickIssuer_first_failure_aborts_and_issuers_isolated`:
with 2 shards and an SA read error on shard 0, the error is reported for
shard 0 and only shard 0 was attempted. -/
theorem tickIssuer_first_failure_aborts_witness :
    (tickIssuer ⟨2, 0, 10⟩ 0 1 saReadErrEnv).err = some (0, .saRecv) ∧
    (tickIssuer ⟨2, 0, 10⟩ 0 1 saReadErrEnv).shardResults.map Prod.fst =
      shardIDList (0 + 1) :=
  ⟨by decide,
    ((tickIssuer_first_failure_aborts_and_issuers_isolated ⟨2, 0, 10⟩ 0 1
      saReadErrEnv).2.1 0 .saRecv (by decide)).2.2.1⟩

/-- Claim C8 (confirmed): every shard processed without failure opened
the SA stream with exactly its window bounds as expiresAfter and
expiresBefore and the reference time as revokedBefore; sent exactly one
metadata message carrying the issuer name ID and thisUpdate equal to the
reference time, before any entry message; forwarded every received
record as an entry message in source order; and handed the validator the
concatenation, in receipt order, of all output chunks. -/
theorem processShard_protocol :
    ∀ (cu : CrlUpdaterConfig) (atTime id : Int) (env : Int → ShardEnv)
      (i : Int) (r : ShardOutcomeData),
      (i, r) ∈ (tickIssuer cu atTime id env).shardResults → r.err = none →
      r.saRequest = ⟨id, unixNano (getWindowForShard cu atTime i).1,
        unixNano (getWindowForShard cu atTime i).2, unixNano atTime⟩ ∧
      r.caMsgs = .metadata id (unixNano atTime) :: ((env i).saRecvs.map .entry) ∧
      r.crlBytes = some ((env i).caChunks.flatten) := by
  intro cu atTime id env i r hm hok
  have hr := runShards_mem_spec cu id atTime env (shardIDList cu.numShards) i r hm
  subst hr
  rw [processShard_ok_spec id atTime _ _ (env i) hok]
  exact ⟨rfl, rfl, rfl⟩

set_option maxRecDepth 10000 in
/-- Witness for `processShard_protocol`: one healthy shard with one
issuer and one shard. -/
theorem processShard_protocol_witness :
    (((0 : Int), processShard 0 0 (getWindowForShard ⟨1, 0, 10⟩ 0 0).1
        (getWindowForShard ⟨1, 0, 10⟩ 0 0).2 okShardEnv) ∈
      (tickIssuer ⟨1, 0, 10⟩ 0 0 (fun _ => okShardEnv)).shardResults) ∧
    ((processShard 0 0 (getWindowForShard ⟨1, 0, 10⟩ 0 0).1
        (getWindowForShard ⟨1, 0, 10⟩ 0 0).2 okShardEnv).err = none) ∧
    ((processShard 0 0 (getWindowForShard ⟨1, 0, 10⟩ 0 0).1
        (getWindowForShard ⟨1, 0, 10⟩ 0 0).2 okShardEnv).saRequest =
      ⟨0, unixNano (getWindowForShard ⟨1, 0, 10⟩ 0 0).1,
        unixNano (getWindowForShard ⟨1, 0, 10⟩ 0 0).2, unixNano 0⟩ ∧
     (processShard 0 0 (getWindowForShard ⟨1, 0, 10⟩ 0 0).1
        (getWindowForShard ⟨1, 0, 10⟩ 0 0).2 okShardEnv).caMsgs =
      .metadata 0 (unixNano 0) :: (okShardEnv.saRecvs.map .entry) ∧
     (processShard 0 0 (getWindowForShard ⟨1, 0, 10⟩ 0 0).1
        (getWindowForShard ⟨1, 0, 10⟩ 0 0).2 okShardEnv).crlBytes =
      some (okShardEnv.caChunks.flatten)) :=
  ⟨by decide, by decide,
    processShard_protocol ⟨1, 0, 10⟩ 0 0 (fun _ => okShardEnv) 0 _ (by decide) (by decide)⟩

/-!
## The shard union (claim C5)
-/

/-- Helper: the union of `n` consecutive width-`w` chunks starting at
grid positions `m, m+1, ..., m+n-1`, indexed so that indices below `m`
are pushed up by `n`, is the contiguous interval of width `n * w`
starting at `z + m * w`. -/
theorem chunkUnion (z w n m : Int) (hw : 0 < w) (hm0 : 0 ≤ m) (hmn : m < n) :
    (⋃ k ∈ Finset.range n.toNat,
      Set.Ico (z + (if (k : Int) < m then (k : Int) + n else (k : Int)) * w)
        (z + (if (k : Int) < m then (k : Int) + n else (k : Int)) * w + w)) =
      Set.Ico (z + m * w) (z + m * w + n * w) := by
  ext x
  simp only [Set.mem_iUnion, Finset.mem_range, Set.mem_Ico, exists_prop]
  have hqiff : ∀ a : Int, (z + a * w ≤ x ∧ x < z + a * w + w) ↔ (x - z) / w = a := by
    intro a
    constructor
    · rintro ⟨h1, h2⟩
      have ha1 : a ≤ (x - z) / w := by
        rw [Int.le_ediv_iff_mul_le hw]
        linarith
      have ha2 : (x - z) / w < a + 1 := by
        rw [Int.ediv_lt_iff_lt_mul hw]
        have hr : (a + 1) * w = a * w + w := by ring
        linarith
      omega
    · intro hq
      have h1 : (x - z) / w * w ≤ x - z := Int.ediv_mul_le _ (by omega)
      have h2 : x - z < ((x - z) / w + 1) * w := Int.lt_ediv_add_one_mul_self _ hw
      rw [hq] at h1 h2
      have hr : (a + 1) * w = a * w + w := by ring
      rw [hr] at h2
      exact ⟨by linarith, by linarith⟩
  constructor
  · rintro ⟨k, hk, hx⟩
    have hq := (hqiff _).mp hx
    have hj1 : m ≤ (if (k : Int) < m then (k : Int) + n else (k : Int)) := by
      split_ifs with h <;> omega
    have hj2 : (if (k : Int) < m then (k : Int) + n else (k : Int)) < m + n := by
      split_ifs with h <;> omega
    have hb1 : (if (k : Int) < m then (k : Int) + n else (k : Int)) * w ≤ x - z := by
      have := Int.ediv_mul_le (x - z) (show w ≠ 0 by omega)
      rw [hq] at this
      exact this
    have hb2 : x - z < ((if (k : Int) < m then (k : Int) + n else (k : Int)) + 1) * w := by
      have := Int.lt_ediv_add_one_mul_self (x - z) hw
      rw [hq] at this
      exact this
    have hs1 : m * w ≤ (if (k : Int) < m then (k : Int) + n else (k : Int)) * w :=
      mul_le_mul_of_nonneg_right hj1 (by omega)
    have hs2 : ((if (k : Int) < m then (k : Int) + n else (k : Int)) + 1) * w ≤
        (m + n) * w :=
      mul_le_mul_of_nonneg_right (by omega) (by omega)
    have hr : (m + n) * w = m * w + n * w := by ring
    exact ⟨by linarith, by linarith⟩
  · rintro ⟨h1, h2⟩
    have hq1 : m ≤ (x - z) / w := by
      rw [Int.le_ediv_iff_mul_le hw]
      linarith
    have hq2 : (x - z) / w < m + n := by
      rw [Int.ediv_lt_iff_lt_mul hw]
      have hr : (m + n) * w = m * w + n * w := by ring
      linarith
    by_cases hqn : (x - z) / w < n
    · refine ⟨((x - z) / w).toNat, by omega, ?_⟩
      have hcast : (((x - z) / w).toNat : Int) = (x - z) / w := by omega
      rw [hcast, if_neg (by omega)]
      exact (hqiff _).mpr rfl
    · refine ⟨((x - z) / w - n).toNat, by omega, ?_⟩
      have hcast : ((((x - z) / w - n).toNat : Int)) = (x - z) / w - n := by omega
      rw [hcast, if_pos (by omega)]
      have hr : ((x - z) / w - n + n) = (x - z) / w := by ring
      rw [hr]
      exact (hqiff _).mpr rfl

/-- Claim C5, amended (proved): for every reference time at or after the
zero value and within the `Duration` range, with at least one shard,
nonnegative lookback, positive lookforward, a window width within the
`Duration` range (so Go's `int64` addition of the two periods does not
wrap), positive shard width and the divisibility invariant, the union
over all shard IDs of the returned intervals tiles — contiguously, with
pairwise disjoint shards — an interval of exactly the window width whose
start lies on the epoch-anchored chunk grid and which contains the
reference time; it equals the observation window `[t-lookback,
t+lookforward)` when the window width divides `t - lookback`, but not in
general. -/
theorem getWindowForShard_union_amended :
    ∀ (n lb lf t : Int),
      1 ≤ n → 0 ≤ lb → 0 < lf → lb + lf ≤ maxDuration → n ∣ (lb + lf) →
      0 < Int.tdiv (lb + lf) n → 0 ≤ t → t ≤ maxDuration →
      ∃ A : Int,
        Int.tdiv (lb + lf) n ∣ A ∧ A ≤ t ∧ t < A + (lb + lf) ∧
        (⋃ k ∈ Finset.range n.toNat,
          Set.Ico ((getWindowForShard ⟨n, lb, lf⟩ t (k : Int)).1)
            ((getWindowForShard ⟨n, lb, lf⟩ t (k : Int)).2)) =
          Set.Ico A (A + (lb + lf)) ∧
        (∀ k1 k2 : Int, 0 ≤ k1 → k1 < n → 0 ≤ k2 → k2 < n → k1 ≠ k2 →
          Set.Ico ((getWindowForShard ⟨n, lb, lf⟩ t k1).1)
              ((getWindowForShard ⟨n, lb, lf⟩ t k1).2) ∩
            Set.Ico ((getWindowForShard ⟨n, lb, lf⟩ t k2).1)
              ((getWindowForShard ⟨n, lb, lf⟩ t k2).2) = ∅) ∧
        ((lb + lf) ∣ (t - lb) → A = t - lb) := by
  intro n lb lf t hn hlb hlf hsum hdvd hw ht0 ht1
  set w : Int := Int.tdiv (lb + lf) n with hwdef
  have hmax : maxDuration = 9223372036854775807 := by norm_num [maxDuration]
  have hmin : minDuration = -9223372036854775808 := by norm_num [minDuration]
  have hwrap : wrap64 (lb + lf) = lb + lf :=
    wrap64_eq_of_range _ (by rw [hmin]; omega) hsum
  rw [hmax] at ht1
  have hsub : timeSub t 0 = t := by
    unfold timeSub
    rw [hmax, hmin, if_neg (by omega), if_neg (by omega)]
    omega
  have hW0 : 0 < lb + lf := by omega
  have hWmul : lb + lf = n * w := by
    have hc := Int.tdiv_mul_cancel hdvd
    rw [← hwdef] at hc
    linarith
  have htm : Int.tmod t (lb + lf) = t % (lb + lf) := Int.tmod_eq_emod ht0 (by omega)
  have hoff0 : 0 ≤ t % (lb + lf) := Int.emod_nonneg t (by omega)
  have hoffW : t % (lb + lf) < lb + lf := Int.emod_lt_of_pos t hW0
  obtain ⟨m, hm0, hmn, hmchar⟩ :
      ∃ m : Int, 0 ≤ m ∧ m < n ∧
        ∀ k : Int, 0 ≤ k → (k * w + w < t % (lb + lf) - lb ↔ k < m) := by
    by_cases hD : t % (lb + lf) - lb ≤ 0
    · refine ⟨0, le_refl 0, by omega, ?_⟩
      intro k hk
      constructor
      · intro h
        exfalso
        have hkw : 0 ≤ k * w := mul_nonneg hk (by omega)
        linarith
      · intro h
        omega
    · refine ⟨(t % (lb + lf) - lb - 1) / w, ?_, ?_, ?_⟩
      · exact Int.ediv_nonneg (by omega) (by omega)
      · rw [Int.ediv_lt_iff_lt_mul hw]
        have hr : n * w = lb + lf := hWmul.symm
        linarith
      · intro k hk
        constructor
        · intro h
          have h' : (k + 1) * w ≤ t % (lb + lf) - lb - 1 := by
            have hr : (k + 1) * w = k * w + w := by ring
            linarith
          have h2 := (Int.le_ediv_iff_mul_le hw).mpr h'
          omega
        · intro h
          have h2 : k + 1 ≤ (t % (lb + lf) - lb - 1) / w := by omega
          have h3 := (Int.le_ediv_iff_mul_le hw).mp h2
          have hr : (k + 1) * w = k * w + w := by ring
          linarith
  have hwin : ∀ k : Int, 0 ≤ k → k < n →
      getWindowForShard ⟨n, lb, lf⟩ t k =
        if k < m then
          (t - t % (lb + lf) + k * w + (lb + lf),
           t - t % (lb + lf) + k * w + w + (lb + lf))
        else (t - t % (lb + lf) + k * w, t - t % (lb + lf) + k * w + w) := by
    intro k hk0 hkn
    have hk' : Int.tmod k n = k := by
      rw [Int.tmod_eq_emod hk0 (by omega)]
      exact Int.emod_eq_of_lt hk0 hkn
    simp only [getWindowForShard, shardCandidate, hsub, hwrap, hk', htm, ← hwdef]
    have hneg : t + -(t % (lb + lf)) = t - t % (lb + lf) := by ring
    rw [hneg]
    by_cases hc : k < m
    · rw [if_pos ?_, if_pos hc]
      have h1 := (hmchar k hk0).mpr hc
      linarith
    · rw [if_neg ?_, if_neg hc]
      intro h1
      exact hc ((hmchar k hk0).mp (by linarith))
  have hstep : (⋃ k ∈ Finset.range n.toNat,
      Set.Ico ((getWindowForShard ⟨n, lb, lf⟩ t (k : Int)).1)
        ((getWindowForShard ⟨n, lb, lf⟩ t (k : Int)).2)) =
      ⋃ k ∈ Finset.range n.toNat,
        Set.Ico (t - t % (lb + lf) +
            (if (k : Int) < m then (k : Int) + n else (k : Int)) * w)
          (t - t % (lb + lf) +
            (if (k : Int) < m then (k : Int) + n else (k : Int)) * w + w) := by
    apply Set.iUnion₂_congr
    intro k hk
    have hkn : (k : Int) < n := by
      have := Finset.mem_range.mp hk
      omega
    rw [hwin k (by omega) hkn]
    by_cases hc : (k : Int) < m
    · rw [if_pos hc, if_pos hc]
      dsimp only
      have e1 : t - t % (lb + lf) + (k : Int) * w + (lb + lf) =
          t - t % (lb + lf) + ((k : Int) + n) * w := by linear_combination hWmul
      have e2 : t - t % (lb + lf) + (k : Int) * w + w + (lb + lf) =
          t - t % (lb + lf) + ((k : Int) + n) * w + w := by linear_combination hWmul
      rw [e1, e2]
    · rw [if_neg hc, if_neg hc]
  have huni := chunkUnion (t - t % (lb + lf)) w n m hw hm0 hmn
  have hmw : m * w ≤ t % (lb + lf) := by
    by_cases hm : m = 0
    · rw [hm]
      simpa using hoff0
    · have h1 := (hmchar (m - 1) (by omega)).mpr (by omega)
      have hr : (m - 1) * w + w = m * w := by ring
      linarith
  refine ⟨t - t % (lb + lf) + m * w, ?_, by linarith, ?_, ?_, ?_, ?_⟩
  · refine ⟨n * (t / (lb + lf)) + m, ?_⟩
    have hzq : t - t % (lb + lf) = (lb + lf) * (t / (lb + lf)) := by
      rw [Int.emod_def]
      ring
    rw [hzq, hWmul]
    ring
  · have hnw : 0 ≤ m * w := mul_nonneg hm0 (by omega)
    linarith
  · rw [hstep, huni]
    have e : t - t % (lb + lf) + m * w + n * w =
        t - t % (lb + lf) + m * w + (lb + lf) := by linear_combination -hWmul
    rw [e]
  · intro k1 k2 hk10 hk1n hk20 hk2n hne
    have hdisj0 : ∀ s1 e1 s2 e2 : Int, e1 ≤ s2 →
        Set.Ico s1 e1 ∩ Set.Ico s2 e2 = ∅ := by
      intro s1 e1 s2 e2 he
      rw [Set.Ico_inter_Ico]
      apply Set.Ico_eq_empty
      refine not_lt.mpr ?_
      exact le_trans (inf_le_left) (le_trans he (le_sup_right))
    have hdisj2 : ∀ j1 j2 : Int, j1 ≠ j2 →
        Set.Ico (t - t % (lb + lf) + j1 * w) (t - t % (lb + lf) + j1 * w + w) ∩
          Set.Ico (t - t % (lb + lf) + j2 * w)
            (t - t % (lb + lf) + j2 * w + w) = ∅ := by
      intro j1 j2 hne'
      have key : ∀ a b : Int, a + 1 ≤ b →
          Set.Ico (t - t % (lb + lf) + a * w) (t - t % (lb + lf) + a * w + w) ∩
            Set.Ico (t - t % (lb + lf) + b * w)
              (t - t % (lb + lf) + b * w + w) = ∅ := by
        intro a b hab
        apply hdisj0
        have h1 := mul_le_mul_of_nonneg_right hab (le_of_lt hw)
        have hr : (a + 1) * w = a * w + w := by ring
        linarith
      rcases lt_or_gt_of_ne hne' with h | h
      · exact key j1 j2 (by omega)
      · rw [Set.inter_comm]
        exact key j2 j1 (by omega)
    rw [hwin k1 hk10 hk1n, hwin k2 hk20 hk2n]
    by_cases hc1 : k1 < m <;> by_cases hc2 : k2 < m
    · rw [if_pos hc1, if_pos hc2]
      have e1 : t - t % (lb + lf) + k1 * w + (lb + lf) =
          t - t % (lb + lf) + (k1 + n) * w := by linear_combination hWmul
      have e2 : t - t % (lb + lf) + k1 * w + w + (lb + lf) =
          t - t % (lb + lf) + (k1 + n) * w + w := by linear_combination hWmul
      have e3 : t - t % (lb + lf) + k2 * w + (lb + lf) =
          t - t % (lb + lf) + (k2 + n) * w := by linear_combination hWmul
      have e4 : t - t % (lb + lf) + k2 * w + w + (lb + lf) =
          t - t % (lb + lf) + (k2 + n) * w + w := by linear_combination hWmul
      rw [e1, e2, e3, e4]
      exact hdisj2 (k1 + n) (k2 + n) (by omega)
    · rw [if_pos hc1, if_neg hc2]
      have e1 : t - t % (lb + lf) + k1 * w + (lb + lf) =
          t - t % (lb + lf) + (k1 + n) * w := by linear_combination hWmul
      have e2 : t - t % (lb + lf) + k1 * w + w + (lb + lf) =
          t - t % (lb + lf) + (k1 + n) * w + w := by linear_combination hWmul
      rw [e1, e2]
      exact hdisj2 (k1 + n) k2 (by omega)
    · rw [if_neg hc1, if_pos hc2]
      have e3 : t - t % (lb + lf) + k2 * w + (lb + lf) =
          t - t % (lb + lf) + (k2 + n) * w := by linear_combination hWmul
      have e4 : t - t % (lb + lf) + k2 * w + w + (lb + lf) =
          t - t % (lb + lf) + (k2 + n) * w + w := by linear_combination hWmul
      rw [e3, e4]
      exact hdisj2 k1 (k2 + n) (by omega)
    · rw [if_neg hc1, if_neg hc2]
      exact hdisj2 k1 k2 hne
  · rintro ⟨c, hc⟩
    have hofflb : t % (lb + lf) = lb := by
      have ht' : t = lb + (lb + lf) * c := by linarith
      rw [ht', Int.add_mul_emod_self_left]
      exact Int.emod_eq_of_lt hlb (by omega)
    have hm : m = 0 := by
      by_contra hm'
      have h1 := (hmchar (m - 1) (by omega)).mpr (by omega)
      have hkw : 0 ≤ (m - 1) * w := mul_nonneg (by omega) (by omega)
      rw [hofflb] at h1
      linarith
    rw [hm, hofflb]
    ring

/-- Witness for `getWindowForShard_union_amended` with 5 shards, lookback
0, lookforward 10, reference time 0 (where the union is exactly the
observation window `[0, 10)`). -/
theorem getWindowForShard_union_amended_witness :
    (1 ≤ (5 : Int) ∧ (0 : Int) ≤ 0 ∧ (0 : Int) < 10 ∧
      (0 : Int) + 10 ≤ maxDuration ∧ (5 : Int) ∣ ((0 : Int) + 10) ∧
      0 < Int.tdiv ((0 : Int) + 10) 5 ∧ (0 : Int) ≤ 0 ∧ (0 : Int) ≤ maxDuration) ∧
    (∃ A : Int,
      Int.tdiv ((0 : Int) + 10) 5 ∣ A ∧ A ≤ 0 ∧ (0 : Int) < A + (0 + 10) ∧
      (⋃ k ∈ Finset.range (Int.toNat 5),
        Set.Ico ((getWindowForShard ⟨5, 0, 10⟩ 0 (k : Int)).1)
          ((getWindowForShard ⟨5, 0, 10⟩ 0 (k : Int)).2)) =
        Set.Ico A (A + (0 + 10)) ∧
      (∀ k1 k2 : Int, 0 ≤ k1 → k1 < 5 → 0 ≤ k2 → k2 < 5 → k1 ≠ k2 →
        Set.Ico ((getWindowForShard ⟨5, 0, 10⟩ 0 k1).1)
            ((getWindowForShard ⟨5, 0, 10⟩ 0 k1).2) ∩
          Set.Ico ((getWindowForShard ⟨5, 0, 10⟩ 0 k2).1)
            ((getWindowForShard ⟨5, 0, 10⟩ 0 k2).2) = ∅) ∧
      (((0 : Int) + 10) ∣ ((0 : Int) - 0) → A = 0 - 0)) :=
  ⟨⟨by decide, by decide, by decide, by decide, by norm_num, by decide, by decide,
      by decide⟩,
    getWindowForShard_union_amended 5 0 10 0 (by decide) (by decide) (by decide)
      (by decide) (by norm_num) (by decide) (by decide) (by decide)⟩
